import Mathlib

/-!
Verification of the caption acquisition and normalization engine of the
dump_youtube_subtitle repository.

The repository consists of many Python variants of one program.  The
definitions below are shallow embeddings of the concrete Python functions
named in the claims:

* src/ytsub_my24.py  parse_json3 (lines 111-131), fetch-chain timestamp logic;
* src/ytsub.py       format_timestamp (lines 80-84) and the rendering loop of
  get_transcript (lines 102-108);
* src/ytsub_my07.py  fetch_transcript (lines 63-107): the two-stage
  acquisition chain and the per-entry rendering loop (lines 96-104), and the
  track-selection logic (lines 66-79);
* src/ytsub_my28.py  clean_vtt (lines 111-143): the timed-text (VTT) cleaner
  with tag stripping, attribute-token removal, &nbsp; decoding, line joining
  and adjacent-duplicate suppression.

Python strings are modelled as Lean String (with most processing done on the
underlying character list), dictionaries with optional keys as structures of
Option fields, floats that are immediately truncated by int() as Nat, and
network or process effects as explicit Option-valued inputs (none modelling a
raised exception).  Regular-expression operations are embedded as equivalent
character-list scanners, written as structural recursions so that every
definition evaluates by kernel reduction.
-/

namespace YtSub

/-! ## Generic character and list helpers -/

/-- Whitespace in the sense of Python's default str.strip, str.isspace and
the regular-expression class backslash-s (ASCII part). -/
def isPySpaceChar (c : Char) : Bool :=
  c = ' ' || c = '\t' || c = '\n' || c = '\r' || c = '\x0b' || c = '\x0c'

/-- Does the second list start with the first one? -/
def startsWithList : List Char → List Char → Bool
  | [], _ => true
  | _ :: _, [] => false
  | p :: ps, c :: cs => p = c && startsWithList ps cs

/-- Does the token occur as a contiguous sublist? -/
def occursIn (tok : List Char) : List Char → Bool
  | [] => startsWithList tok []
  | c :: rest => startsWithList tok (c :: rest) || occursIn tok rest

/-- Remove the trailing run of characters satisfying p. -/
def dropTrailing (p : Char → Bool) : List Char → List Char
  | [] => []
  | c :: rest =>
    let r := dropTrailing p rest
    if r.isEmpty && p c then [] else c :: r

/-- Python str.strip(): remove leading and trailing whitespace. -/
def trimChars (l : List Char) : List Char :=
  dropTrailing isPySpaceChar (l.dropWhile isPySpaceChar)

/-- Split a character list at every newline character (Python str.split
with separator "\n"). -/
def splitOnNl : List Char → List (List Char)
  | [] => [[]]
  | c :: rest =>
    if c = '\n' then [] :: splitOnNl rest
    else
      match splitOnNl rest with
      | l :: ls => (c :: l) :: ls
      | [] => [[c]]

/-- Join character lists with a separator (Python sep.join). -/
def joinWith (sep : List Char) : List (List Char) → List Char
  | [] => []
  | [l] => l
  | l :: l2 :: rest => l ++ sep ++ joinWith sep (l2 :: rest)

/-- Join strings with newline characters (Python "\n".join). -/
def joinLinesStr (ls : List String) : String :=
  String.mk (joinWith ['\n'] (ls.map String.data))

/-- Python str.isspace(): nonempty and all whitespace. -/
def pyIsSpace (s : String) : Bool :=
  !s.data.isEmpty && s.data.all isPySpaceChar

/-- Python text.replace of a single newline character with a space. -/
def replaceNl (s : String) : String :=
  String.mk (s.data.map (fun c => if c = '\n' then ' ' else c))

/-- Zero-padded rendering of a number to at least two digits (the Python
format specifier 02d). -/
def pad2 (n : Nat) : String :=
  if n < 10 then "0" ++ toString n else toString n

/-! ## The event-stream (JSON3) parser, src/ytsub_my24.py lines 111-131 -/

/-- One entry of an event's segment list: a dictionary whose utf8 key may be
absent. -/
structure Seg where
  utf8 : Option String
deriving DecidableEq, Repr

/-- One timed event of the JSON3 payload: tStartMs and segs keys may each be
absent. -/
structure Event where
  tStartMs : Option Nat
  segs : Option (List Seg)
deriving DecidableEq, Repr

/-- The JSON3 payload: the events key may be absent. -/
structure Json3Payload where
  events : Option (List Event)
deriving DecidableEq, Repr

/-- Timestamp of src/ytsub_my24.py lines 120-123: seconds to
bracketed zero-padded HH:MM:SS with unbounded hours. -/
def fmtHMS (seconds : Nat) : String :=
  let m := seconds / 60
  let s := seconds % 60
  let h := m / 60
  let m2 := m % 60
  "[" ++ pad2 h ++ ":" ++ pad2 m2 ++ ":" ++ pad2 s ++ "]"

/-- Concatenation of the utf8 fields of a segment list followed by
Python str.strip (src/ytsub_my24.py line 126). -/
def segsText (segs : List Seg) : String :=
  String.mk (trimChars (segs.map (fun sg => (sg.utf8.getD "").data)).flatten)

/-- The body of the event loop of parse_json3 (src/ytsub_my24.py lines
115-129): events without a segs key are skipped, a missing tStartMs counts
as 0, and the line is emitted only when the concatenated stripped text is
nonempty and not all whitespace. -/
def eventLine (event : Event) : Option String :=
  match event.segs with
  | none => none
  | some segs =>
    let startMs := event.tStartMs.getD 0
    let seconds := startMs / 1000
    let timestamp := fmtHMS seconds
    let text := segsText segs
    if !text.data.isEmpty && !pyIsSpace text then some (timestamp ++ " " ++ text) else none

/-- The same event loop viewed as producing a cue (start seconds, text)
instead of a rendered line; used to state ordering properties. -/
def eventCue (event : Event) : Option (Nat × String) :=
  match event.segs with
  | none => none
  | some segs =>
    let startMs := event.tStartMs.getD 0
    let text := segsText segs
    if !text.data.isEmpty && !pyIsSpace text then some (startMs / 1000, text) else none

/-- parse_json3 of src/ytsub_my24.py lines 111-131. -/
def parse_json3 (data : Json3Payload) : String :=
  joinLinesStr ((data.events.getD []).filterMap eventLine)

/-! ## The rendering loop of src/ytsub.py get_transcript (lines 102-108) -/

/-- One transcript entry as returned by the captions API: a start time (the
code truncates it with int() before use) and a text. -/
structure Entry where
  start : Nat
  text : String
deriving DecidableEq, Repr

/-- format_timestamp of src/ytsub.py lines 80-84. -/
def format_timestamp (seconds : Nat) : String :=
  let m := seconds / 60
  let s := seconds % 60
  let h := m / 60
  let m2 := m % 60
  pad2 h ++ ":" ++ pad2 m2 ++ ":" ++ pad2 s

/-- The output loop of get_transcript, src/ytsub.py lines 102-108: every
entry is rendered, with newlines in its text replaced by spaces, and no
emptiness check. -/
def get_transcript_lines (data : List Entry) : String :=
  joinLinesStr (data.map (fun e => "[" ++ format_timestamp e.start ++ "] " ++ replaceNl e.text))

/-! ## The acquisition chain of src/ytsub_my07.py fetch_transcript -/

/-- The rendering loop of src/ytsub_my07.py lines 96-104: bracketed
timestamp, newline replaced by space, no emptiness check. -/
def renderLines (data : List Entry) : String :=
  joinLinesStr (data.map (fun e => fmtHMS e.start ++ " " ++ replaceNl e.text))

/-- fetch_transcript of src/ytsub_my07.py lines 63-107.  The two effectful
acquisition stages are passed in as values: stage1 is the outcome of the
listing-based attempt (lines 65-81), stage2 the outcome of the direct
get_transcript attempt (lines 83-91); none models a raised exception.
stage2 is a thunk because the code only evaluates it inside the except
branch.  After either stage, "if not data: return None" (lines 93-94), then
the rendering loop. -/
def fetch_transcript (stage1 : Option (List Entry)) (stage2 : Unit → Option (List Entry)) :
    Option String :=
  match stage1 with
  | some data => if data.isEmpty then none else some (renderLines data)
  | none =>
    match stage2 () with
    | some data => if data.isEmpty then none else some (renderLines data)
    | none => none

/-! ## Track selection, src/ytsub_my07.py lines 66-79 -/

/-- One caption track of the upstream listing: language code, origin kind
(auto-generated or authored) and translatability. -/
structure Track where
  lang : String
  isGenerated : Bool
  isTranslatable : Bool
deriving DecidableEq, Repr

/-- A selection decision: the chosen track, and the language it is to be
translated to, if any. -/
structure Selection where
  track : Track
  target : Option String
deriving DecidableEq, Repr

/-- Lookup done by the captions API's find_transcript, which the repository
calls but does not define.  Modelled from the spec: for each requested
language code in order, return the track with that exact code, preferring an
authored track over an auto-generated one with the same code. -/
def findTranscript (tracks : List Track) (codes : List String) : Option Track :=
  codes.findSome? (fun code =>
    match tracks.find? (fun t => !t.isGenerated && t.lang == code) with
    | some t => some t
    | none => tracks.find? (fun t => t.isGenerated && t.lang == code))

/-- The track-selection logic of src/ytsub_my07.py lines 66-79, as a pure
decision function over the listed tracks (given in the API's iteration
order, authored tracks first).  First try zh-TW/zh-Hant/zh-HK and return the
match unmodified; else try en/zh-Hans and translate the match to zh-TW when
it is translatable; else take the first listed track and translate it to
zh-TW when it is translatable; with no tracks at all the code raises
(StopIteration), modelled as none. -/
def selectTranscript (tracks : List Track) : Option Selection :=
  match findTranscript tracks ["zh-TW", "zh-Hant", "zh-HK"] with
  | some t => some ⟨t, none⟩
  | none =>
    match findTranscript tracks ["en", "zh-Hans"] with
    | some t => some ⟨t, if t.isTranslatable then some "zh-TW" else none⟩
    | none =>
      match tracks.head? with
      | some t => some ⟨t, if t.isTranslatable then some "zh-TW" else none⟩
      | none => none

/-! ## The timed-text (VTT) cleaner, src/ytsub_my28.py clean_vtt (111-143)

Each regular-expression operation of clean_vtt is embedded as an equivalent
structural scanner over the character list. -/

/-- A line matched by the header regex: starts with WEBVTT, case-insensitive
(src/ytsub_my28.py line 114). -/
def isWebvttLine (l : List Char) : Bool :=
  startsWithList "WEBVTT".data (l.map Char.toUpper)

/-- A line matched by the time-line regex: two digits then a colon
(src/ytsub_my28.py line 125). -/
def isTimeLine (l : List Char) : Bool :=
  match l with
  | c1 :: c2 :: c3 :: _ => c1.isDigit && c2.isDigit && c3 = ':'
  | _ => false

/-- re.sub of a line-anchored pattern with MULTILINE: every matching line is
removed together with its newline; the final segment has no newline and is
never removed. -/
def dropExceptLast (p : List Char → Bool) : List (List Char) → List (List Char)
  | [] => []
  | [l] => [l]
  | l :: l2 :: rest =>
    if p l then dropExceptLast p (l2 :: rest) else l :: dropExceptLast p (l2 :: rest)

/-- Removal of WEBVTT header lines (src/ytsub_my28.py line 114). -/
def removeWebvttLines (cs : List Char) : List Char :=
  joinWith ['\n'] (dropExceptLast isWebvttLine (splitOnNl cs))

/-- Removal of time lines inside a block (src/ytsub_my28.py line 125). -/
def removeTimeLines (cs : List Char) : List Char :=
  joinWith ['\n'] (dropExceptLast isTimeLine (splitOnNl cs))

/-- Match of the timestamp pattern (two digits, colon, two digits, colon,
two digits, dot or comma, three digits) at the start of the list, returning
the captured HH:MM:SS group (src/ytsub_my28.py line 120). -/
def matchTimeAt (l : List Char) : Option String :=
  match l with
  | a :: b :: k1 :: c :: d :: k2 :: e :: f :: sep :: g :: h :: i :: _ =>
    if a.isDigit && b.isDigit && k1 = ':' && c.isDigit && d.isDigit && k2 = ':' &&
       e.isDigit && f.isDigit && (sep = '.' || sep = ',') && g.isDigit && h.isDigit && i.isDigit
    then some (String.mk [a, b, k1, c, d, k2, e, f]) else none
  | _ => none

/-- re.search for the timestamp pattern: the leftmost match
(src/ytsub_my28.py line 120). -/
def searchTime : List Char → Option String
  | [] => none
  | c :: rest =>
    match matchTimeAt (c :: rest) with
    | some ts => some ts
    | none => searchTime rest

/-- Scanner for the tag-removal regex (angle bracket, one or more
characters none of which is a closing angle bracket, closing angle
bracket; src/ytsub_my28.py line 126).  The second argument is none while
outside a candidate tag and holds the reversed characters seen since an
opening bracket otherwise. -/
def stripTagsGo : List Char → Option (List Char) → List Char
  | [], none => []
  | [], some buf => '<' :: buf.reverse
  | c :: rest, none =>
    if c = '<' then stripTagsGo rest (some [])
    else c :: stripTagsGo rest none
  | c :: rest, some buf =>
    if c = '>' then
      if buf.isEmpty then '<' :: '>' :: stripTagsGo rest none
      else stripTagsGo rest none
    else stripTagsGo rest (some (c :: buf))

/-- Removal of inline markup tags (src/ytsub_my28.py line 126). -/
def stripTags (cs : List Char) : List Char :=
  stripTagsGo cs none

/-- Python content.replace of the &nbsp; entity with a space
(src/ytsub_my28.py line 127). -/
def replaceNbspChars : List Char → List Char
  | [] => []
  | '&' :: 'n' :: 'b' :: 's' :: 'p' :: ';' :: rest => ' ' :: replaceNbspChars rest
  | c :: rest => c :: replaceNbspChars rest

/-- The positioning-attribute words of the attribute regex together with
their colon, in the alternation's order (src/ytsub_my28.py line 130): if
one starts at this position, its length. -/
def attrAt (l : List Char) : Option Nat :=
  if startsWithList "align:".data l then some 6
  else if startsWithList "kind:".data l then some 5
  else if startsWithList "position:".data l then some 9
  else if startsWithList "line:".data l then some 5
  else none

/-- Scanner for the attribute-removal regex (attribute word, colon, one or
more non-whitespace characters; src/ytsub_my28.py line 130).  The second
argument is none while copying; some k means k further characters of the
matched attribute word are to be skipped, after which the maximal run of
non-whitespace value characters is skipped. -/
def removeAttrsGo : List Char → Option Nat → List Char
  | [], _ => []
  | _ :: rest, some (k + 1) => removeAttrsGo rest (some k)
  | c :: rest, some 0 =>
    if !isPySpaceChar c then removeAttrsGo rest (some 0)
    else c :: removeAttrsGo rest none
  | c :: rest, none =>
    match attrAt (c :: rest) with
    | some n =>
      match (c :: rest).drop n with
      | d :: _ =>
        if !isPySpaceChar d then removeAttrsGo rest (some (n - 1))
        else c :: removeAttrsGo rest none
      | [] => c :: removeAttrsGo rest none
    | none => c :: removeAttrsGo rest none

/-- Removal of positioning attributes and their values
(src/ytsub_my28.py line 130). -/
def removeAttrs (cs : List Char) : List Char :=
  removeAttrsGo cs none

/-- Python " ".join of the stripped nonempty lines
(src/ytsub_my28.py line 132). -/
def joinCleanLines (cs : List Char) : List Char :=
  joinWith [' '] (((splitOnNl cs).map trimChars).filter (fun l => !l.isEmpty))

/-- The per-block text cleaning of clean_vtt after removal of the time line
(src/ytsub_my28.py lines 126-132): strip tags, decode &nbsp;, remove
positioning attributes, join stripped nonempty lines with one space. -/
def cleanContent (cs : List Char) : List Char :=
  joinCleanLines (removeAttrs (replaceNbspChars (stripTags cs)))

/-- The block loop body of clean_vtt (src/ytsub_my28.py lines 118-134):
skip the block unless the timestamp pattern occurs; otherwise remove time
lines, strip, clean, and keep the (timestamp, text) pair only when the
cleaned text is nonempty. -/
def processBlock (block : List Char) : Option (String × String) :=
  match searchTime block with
  | none => none
  | some ts =>
    let content := cleanContent (trimChars (removeTimeLines block))
    if content.isEmpty then none
    else some ("[" ++ ts ++ "]", String.mk content)

/-- Scanner for the blank-line block splitter (newline, optional
whitespace, newline; src/ytsub_my28.py line 116).  acc is the reversed
current block; the third argument, when present, is the reversed whitespace
run begun by a newline that may become a separator.  A run containing a
second newline separates; its characters after its last newline start the
next block. -/
def splitGo : List Char → List Char → Option (List Char) → List (List Char)
  | [], acc, none => [acc.reverse]
  | [], acc, some rbuf =>
    if 2 ≤ rbuf.count '\n' then [acc.reverse, (rbuf.takeWhile (fun c => c ≠ '\n')).reverse]
    else [(rbuf ++ acc).reverse]
  | c :: rest, acc, none =>
    if c = '\n' then splitGo rest acc (some ['\n'])
    else splitGo rest (c :: acc) none
  | c :: rest, acc, some rbuf =>
    if isPySpaceChar c then splitGo rest acc (some (c :: rbuf))
    else
      if 2 ≤ rbuf.count '\n' then
        acc.reverse :: splitGo rest (c :: rbuf.takeWhile (fun ch => ch ≠ '\n')) none
      else splitGo rest (c :: (rbuf ++ acc)) none

/-- re.split on blank-line boundaries (src/ytsub_my28.py line 116). -/
def splitBlocks (cs : List Char) : List (List Char) :=
  splitGo cs [] none

/-- The adjacent-duplicate suppression loop of clean_vtt
(src/ytsub_my28.py lines 137-143, identically src/ytsub_my31.py lines
129-135): keep a pair and render it only when its text differs from the
text of the previously kept pair; the comparison text starts out empty. -/
def dedupLoop : List (String × String) → String → List String
  | [], _ => []
  | (ts, txt) :: rest, last =>
    if txt ≠ last then (ts ++ " " ++ txt) :: dedupLoop rest txt
    else dedupLoop rest last

/-- The same suppression loop keeping the pairs instead of rendering them;
used to state ordering and idempotence properties. -/
def dedupPairs : List (String × String) → String → List (String × String)
  | [], _ => []
  | (ts, txt) :: rest, last =>
    if txt ≠ last then (ts, txt) :: dedupPairs rest txt
    else dedupPairs rest last

/-- clean_vtt of src/ytsub_my28.py lines 111-143: strip the leading
byte-order marks, remove WEBVTT header lines, split into blank-line
blocks, clean each block, suppress adjacent duplicates, join. -/
def clean_vtt (text : String) : String :=
  let cs := text.data.dropWhile (fun c => c = '\uFEFF')
  let cs := removeWebvttLines cs
  let blocks := splitBlocks cs
  let lines := blocks.filterMap processBlock
  joinLinesStr (dedupLoop lines "")

/-- The cue-level core of clean_vtt: the normalizer applied to an already
parsed (timestamp, text) cue sequence — per-cue cleaning, dropping cues
whose cleaned text is empty, then adjacent-duplicate suppression
(src/ytsub_my28.py lines 126-143). -/
def normalizeCues (cues : List (String × String)) : List (String × String) :=
  dedupPairs
    (cues.filterMap (fun p =>
      let c := cleanContent p.2.data
      if c.isEmpty then none else some (p.1, String.mk c))) ""

/-- Executable description of an already-normalized cue text: nonempty,
stripped, free of markup brackets, newlines, the &nbsp; entity and the
positioning-attribute tokens. -/
def isCleanLineText (s : String) : Bool :=
  !s.data.isEmpty && trimChars s.data == s.data &&
  !occursIn ['<'] s.data && !occursIn ['\n'] s.data &&
  !occursIn "&nbsp;".data s.data &&
  !occursIn "align:".data s.data && !occursIn "kind:".data s.data &&
  !occursIn "position:".data s.data && !occursIn "line:".data s.data

/-! ## Helper lemmas -/

theorem strMk_data (s : String) : String.mk s.data = s := by
  cases s
  rfl

theorem dedupPairs_head?_snd_ne (l : List (String × String)) :
    ∀ last p, (dedupPairs l last).head? = some p → p.2 ≠ last := by
  induction l with
  | nil => intro last p h; simp [dedupPairs] at h
  | cons x rest ih =>
    intro last p h
    obtain ⟨ts, txt⟩ := x
    rw [dedupPairs] at h
    by_cases hne : txt ≠ last
    · rw [if_pos hne] at h
      simp at h
      rw [← h]
      exact hne
    · rw [if_neg hne] at h
      exact ih last p h

theorem dedupPairs_chain' (l : List (String × String)) :
    ∀ last, List.Chain' (fun a b => a.2 ≠ b.2) (dedupPairs l last) := by
  induction l with
  | nil => intro last; simp [dedupPairs]
  | cons x rest ih =>
    intro last
    obtain ⟨ts, txt⟩ := x
    rw [dedupPairs]
    by_cases hne : txt ≠ last
    · rw [if_pos hne]
      rw [List.chain'_cons']
      refine ⟨?_, ih txt⟩
      intro y hy
      have := dedupPairs_head?_snd_ne rest txt y hy
      exact fun h => this h.symm
    · rw [if_neg hne]
      exact ih last

theorem dedupPairs_sublist (l : List (String × String)) :
    ∀ last, (dedupPairs l last).Sublist l := by
  induction l with
  | nil => intro last; simp [dedupPairs]
  | cons x rest ih =>
    intro last
    obtain ⟨ts, txt⟩ := x
    rw [dedupPairs]
    by_cases hne : txt ≠ last
    · rw [if_pos hne]
      exact (ih txt).cons₂ _
    · rw [if_neg hne]
      exact (ih last).cons _

theorem dedupLoop_eq_map (l : List (String × String)) :
    ∀ last, dedupLoop l last = (dedupPairs l last).map (fun p => p.1 ++ " " ++ p.2) := by
  induction l with
  | nil => intro last; simp [dedupLoop, dedupPairs]
  | cons x rest ih =>
    intro last
    obtain ⟨ts, txt⟩ := x
    rw [dedupLoop, dedupPairs]
    by_cases hne : txt ≠ last
    · rw [if_pos hne, if_pos hne, List.map_cons, ih txt]
    · rw [if_neg hne, if_neg hne, ih last]

theorem dedupPairs_eq_self (l : List (String × String)) :
    ∀ last, (∀ p ∈ l, p.2 ≠ "") → List.Chain' (fun a b => a.2 ≠ b.2) l →
      (∀ p, l.head? = some p → p.2 ≠ last) → dedupPairs l last = l := by
  induction l with
  | nil => intro last _ _ _; rfl
  | cons x rest ih =>
    intro last hne hch hhd
    obtain ⟨ts, txt⟩ := x
    have h1 : txt ≠ last := hhd (ts, txt) rfl
    rw [dedupPairs, if_pos h1]
    congr 1
    rw [List.chain'_cons'] at hch
    refine ih txt (fun p hp => hne p (List.mem_cons_of_mem _ hp)) hch.2 ?_
    intro p hp
    exact fun h => hch.1 p hp h.symm

theorem dropWhile_eq_cons_imp (p : Char → Bool) (l : List Char) (c : Char) (rest : List Char)
    (h : l.dropWhile p = c :: rest) : p c = false := by
  induction l with
  | nil => simp [List.dropWhile] at h
  | cons a as ih =>
    rw [List.dropWhile_cons] at h
    by_cases hp : p a
    · rw [if_pos hp] at h
      exact ih h
    · rw [if_neg hp] at h
      obtain ⟨h1, -⟩ := List.cons.injEq .. ▸ h
      rw [← h1]
      exact Bool.eq_false_iff.mpr hp

theorem dropTrailing_cons_shape (p : Char → Bool) (c : Char) (rest : List Char) :
    dropTrailing p (c :: rest) = [] ∨ dropTrailing p (c :: rest) = c :: dropTrailing p rest := by
  rw [dropTrailing]
  split
  · exact Or.inl rfl
  · exact Or.inr rfl

theorem trimChars_all_space_false (l : List Char) (h : trimChars l ≠ []) :
    (trimChars l).all isPySpaceChar = false := by
  rw [trimChars] at h ⊢
  cases hd : l.dropWhile isPySpaceChar with
  | nil => rw [hd] at h; exact absurd rfl h
  | cons c rest =>
    rw [hd] at h
    have hc : isPySpaceChar c = false := dropWhile_eq_cons_imp _ _ _ _ hd
    rcases dropTrailing_cons_shape isPySpaceChar c rest with he | he
    · exact absurd he h
    · rw [he]
      simp [hc]

theorem str_eq_empty_iff (s : String) : s = "" ↔ s.data = [] := by
  cases s
  simp [String.ext_iff]

theorem segsText_guard (segs : List Seg) (h : segsText segs ≠ "") :
    (!(segsText segs).data.isEmpty && !pyIsSpace (segsText segs)) = true := by
  have hne : (segsText segs).data ≠ [] := fun he => h ((str_eq_empty_iff _).mpr he)
  have hall : (segsText segs).data.all isPySpaceChar = false := by
    have : (segsText segs).data = trimChars (segs.map (fun sg => (sg.utf8.getD "").data)).flatten := rfl
    rw [this] at hne ⊢
    exact trimChars_all_space_false _ hne
  simp [pyIsSpace, hne, hall]

theorem eventCue_fst (e : Event) (c : Nat × String) (h : eventCue e = some c) :
    c.1 = e.tStartMs.getD 0 / 1000 := by
  unfold eventCue at h
  cases hs : e.segs with
  | none => rw [hs] at h; exact absurd h (by simp)
  | some segs =>
    rw [hs] at h
    simp only at h
    split at h
    · obtain ⟨rfl⟩ := Option.some.inj h
      rfl
    · exact absurd h (by simp)

theorem cue_starts_sublist (events : List Event) :
    ((events.filterMap eventCue).map Prod.fst).Sublist
      (events.map (fun e => e.tStartMs.getD 0 / 1000)) := by
  induction events with
  | nil => simp
  | cons e rest ih =>
    rw [List.filterMap_cons]
    cases hc : eventCue e with
    | none =>
      simp only [List.map_cons]
      exact ih.cons _
    | some c =>
      simp only [List.map_cons]
      rw [eventCue_fst e c hc]
      exact ih.cons₂ _

theorem occursIn_cons_false {tok : List Char} {c : Char} {rest : List Char}
    (h : occursIn tok (c :: rest) = false) :
    startsWithList tok (c :: rest) = false ∧ occursIn tok rest = false := by
  rw [occursIn, Bool.or_eq_false_iff] at h
  exact h

theorem stripTagsGo_id (l : List Char) (h : occursIn ['<'] l = false) :
    stripTagsGo l none = l := by
  induction l with
  | nil => rfl
  | cons c rest ih =>
    obtain ⟨h1, h2⟩ := occursIn_cons_false h
    have hc : ¬c = '<' := by
      intro hc
      subst hc
      simp [startsWithList] at h1
    rw [stripTagsGo, if_neg hc, ih h2]

theorem replaceNbspChars_id (l : List Char) (h : occursIn "&nbsp;".data l = false) :
    replaceNbspChars l = l := by
  induction l with
  | nil => rfl
  | cons c rest ih =>
    obtain ⟨h1, h2⟩ := occursIn_cons_false h
    rw [replaceNbspChars.eq_def]
    split
    · rename_i heq
      exact absurd heq (by simp)
    · rename_i x0 rest2 heq
      injection heq with hc hrest
      subst hc
      subst hrest
      simp [startsWithList] at h1
    · rename_i c2 rest2 hno heq
      injection heq with hc hrest
      subst hc
      subst hrest
      rw [ih h2]

theorem attrAt_eq_none {l : List Char}
    (ha : startsWithList "align:".data l = false)
    (hk : startsWithList "kind:".data l = false)
    (hp : startsWithList "position:".data l = false)
    (hl : startsWithList "line:".data l = false) : attrAt l = none := by
  simp [attrAt, ha, hk, hp, hl]

theorem removeAttrsGo_id (l : List Char)
    (ha : occursIn "align:".data l = false) (hk : occursIn "kind:".data l = false)
    (hp : occursIn "position:".data l = false) (hl : occursIn "line:".data l = false) :
    removeAttrsGo l none = l := by
  induction l with
  | nil => rfl
  | cons c rest ih =>
    obtain ⟨ha1, ha2⟩ := occursIn_cons_false ha
    obtain ⟨hk1, hk2⟩ := occursIn_cons_false hk
    obtain ⟨hp1, hp2⟩ := occursIn_cons_false hp
    obtain ⟨hl1, hl2⟩ := occursIn_cons_false hl
    have han : attrAt (c :: rest) = none := attrAt_eq_none ha1 hk1 hp1 hl1
    rw [removeAttrsGo, han, ih ha2 hk2 hp2 hl2]

theorem splitOnNl_no_nl (l : List Char) (h : occursIn ['\n'] l = false) :
    splitOnNl l = [l] := by
  induction l with
  | nil => rfl
  | cons c rest ih =>
    obtain ⟨h1, h2⟩ := occursIn_cons_false h
    have hc : ¬c = '\n' := by
      intro hc
      subst hc
      simp [startsWithList] at h1
    rw [splitOnNl, if_neg hc, ih h2]

theorem joinCleanLines_id (l : List Char) (h0 : l ≠ [])
    (hnl : occursIn ['\n'] l = false) (ht : trimChars l = l) :
    joinCleanLines l = l := by
  rw [joinCleanLines, splitOnNl_no_nl l hnl]
  have he : l.isEmpty = false := by simpa using h0
  simp [List.filter, ht, he, joinWith]

theorem cleanContent_id (l : List Char) (h0 : l ≠ [])
    (ht : trimChars l = l)
    (htag : occursIn ['<'] l = false) (hnl : occursIn ['\n'] l = false)
    (hnbsp : occursIn "&nbsp;".data l = false)
    (ha : occursIn "align:".data l = false) (hk : occursIn "kind:".data l = false)
    (hp : occursIn "position:".data l = false) (hl : occursIn "line:".data l = false) :
    cleanContent l = l := by
  rw [cleanContent, stripTags, stripTagsGo_id l htag, replaceNbspChars_id l hnbsp,
    removeAttrs, removeAttrsGo_id l ha hk hp hl, joinCleanLines_id l h0 hnl ht]

theorem isCleanLineText_spec {s : String} (h : isCleanLineText s = true) :
    s.data ≠ [] ∧ trimChars s.data = s.data ∧ occursIn ['<'] s.data = false ∧
    occursIn ['\n'] s.data = false ∧ occursIn "&nbsp;".data s.data = false ∧
    occursIn "align:".data s.data = false ∧ occursIn "kind:".data s.data = false ∧
    occursIn "position:".data s.data = false ∧ occursIn "line:".data s.data = false := by
  simp only [isCleanLineText, Bool.and_eq_true, Bool.not_eq_true', beq_iff_eq] at h
  obtain ⟨⟨⟨⟨⟨⟨⟨⟨h1, h2⟩, h3⟩, h4⟩, h5⟩, h6⟩, h7⟩, h8⟩, h9⟩ := h
  exact ⟨by simpa using h1, h2, h3, h4, h5, h6, h7, h8, h9⟩

theorem cleanContent_of_clean {s : String} (h : isCleanLineText s = true) :
    cleanContent s.data = s.data := by
  obtain ⟨h0, ht, htag, hnl, hnbsp, ha, hk, hp, hl⟩ := isCleanLineText_spec h
  exact cleanContent_id s.data h0 ht htag hnl hnbsp ha hk hp hl

theorem filterMap_clean_id (cues : List (String × String))
    (hclean : ∀ p ∈ cues, isCleanLineText p.2 = true) :
    cues.filterMap (fun p =>
      let c := cleanContent p.2.data
      if c.isEmpty then none else some (p.1, String.mk c)) = cues := by
  induction cues with
  | nil => rfl
  | cons p rest ih =>
    have hp := hclean p (List.mem_cons_self p rest)
    have hid : cleanContent p.2.data = p.2.data := cleanContent_of_clean hp
    have hne : p.2.data.isEmpty = false := by
      simpa using (isCleanLineText_spec hp).1
    rw [List.filterMap_cons]
    simp only [hid, hne]
    rw [if_neg (by simp)]
    rw [strMk_data, ih (fun q hq => hclean q (List.mem_cons_of_mem _ hq))]

/-! ## Claim C1: the acquisition strategy chain -/

/-- C1, counterexample.  The claim says the first strategy yielding a
non-empty cue sequence determines the result.  In fetch_transcript of
src/ytsub_my07.py, when stage 1 completes without raising but yields an
empty cue list, the function returns None at "if not data" without ever
invoking stage 2 — even though stage 2 would yield a non-empty cue
sequence, whose rendering is the non-empty line shown. -/
theorem c1_chain_counterexample :
    fetch_transcript (some []) (fun _ => some [⟨0, "hi"⟩]) = none ∧
    renderLines [⟨0, "hi"⟩] = "[00:00:00] hi" :=
  ⟨rfl, rfl⟩

/-- C1, amended.  The chain tries its two stages strictly in order; a later
stage is invoked only when the earlier one raises: (1) a non-raising stage 1
determines the result regardless of stage 2; (2) when stage 1 yields a
non-empty payload the result is Success rendered from its cues; (3) when
stage 1 raises and stage 2 yields a non-empty payload the result is Success
rendered from stage 2's cues; (4) a stage that completes with an empty cue
sequence ends the chain with NotFound; (5) when every stage raises the
result is NotFound — never a partial Success. -/
theorem c1_chain_amended :
    (∀ (d : List Entry) (s2 s2' : Unit → Option (List Entry)),
      fetch_transcript (some d) s2 = fetch_transcript (some d) s2') ∧
    (∀ (d : List Entry) (s2 : Unit → Option (List Entry)),
      d ≠ [] → fetch_transcript (some d) s2 = some (renderLines d)) ∧
    (∀ d : List Entry,
      d ≠ [] → fetch_transcript none (fun _ => some d) = some (renderLines d)) ∧
    (∀ s2 : Unit → Option (List Entry), fetch_transcript (some []) s2 = none) ∧
    (fetch_transcript none (fun _ => some []) = none) ∧
    (fetch_transcript none (fun _ => none) = none) := by
  refine ⟨?_, ?_, ?_, ?_, rfl, rfl⟩
  · intro d s2 s2'
    rfl
  · intro d s2 hd
    have he : d.isEmpty = false := by simpa using hd
    simp [fetch_transcript, he]
  · intro d hd
    have he : d.isEmpty = false := by simpa using hd
    simp [fetch_transcript, he]
  · intro s2
    rfl

/-- Witness for C1's amended theorem at concrete inputs. -/
theorem c1_chain_amended_witness :
    fetch_transcript (some [⟨0, "hi"⟩]) (fun _ => none) = some (renderLines [⟨0, "hi"⟩]) ∧
    fetch_transcript none (fun _ => some [⟨0, "hi"⟩]) = some (renderLines [⟨0, "hi"⟩]) :=
  ⟨c1_chain_amended.2.1 [⟨0, "hi"⟩] (fun _ => none) (by simp),
   c1_chain_amended.2.2.1 [⟨0, "hi"⟩] (by simp)⟩

/-! ## Claim C2: adjacent-duplicate suppression -/

/-- C2.  The normalizer's duplicate-suppression loop keeps a cue exactly
when its text differs from the text of the immediately preceding kept cue:
on the cue sequence (0,hi), (1,hi), (2,bye) it yields exactly the two lines
for (0,hi) and (2,bye); the kept cues are a subsequence of the input taken
in order; no two consecutive kept cues ever have identical text; and the
rendered lines are exactly the kept cues rendered. -/
theorem c2_adjacent_duplicate_suppression :
    dedupLoop [("[00:00:00]", "hi"), ("[00:00:01]", "hi"), ("[00:00:02]", "bye")] "" =
      ["[00:00:00] hi", "[00:00:02] bye"] ∧
    (∀ lines : List (String × String),
      List.Chain' (fun a b => a.2 ≠ b.2) (dedupPairs lines "")) ∧
    (∀ lines : List (String × String), (dedupPairs lines "").Sublist lines) ∧
    (∀ lines : List (String × String),
      dedupLoop lines "" = (dedupPairs lines "").map (fun p => p.1 ++ " " ++ p.2)) :=
  ⟨by decide, fun lines => dedupPairs_chain' lines "",
   fun lines => dedupPairs_sublist lines "", fun lines => dedupLoop_eq_map lines ""⟩

/-! ## Claim C5: track selection -/

/-- C5, counterexample.  The claim says a track whose language code exactly
matches a preferred code (the preference list being zh-Hant variants then
en) is returned unmodified, and its own example expects target zh-Hant.
On src/ytsub_my07.py, for the single authored translatable en track the
selection is the en track marked for translation to zh-TW: not unmodified,
and not target zh-Hant either.  Moreover, with a single untranslatable
track in no preferred language the selector still returns that track
rather than failing as Unsupported. -/
theorem c5_selector_counterexample :
    selectTranscript [⟨"en", false, true⟩] =
      some ⟨⟨"en", false, true⟩, some "zh-TW"⟩ ∧
    (selectTranscript [⟨"en", false, true⟩]).map Selection.target ≠ some none ∧
    (selectTranscript [⟨"en", false, true⟩]).map Selection.target ≠ some (some "zh-Hant") ∧
    selectTranscript [⟨"fr", true, false⟩] ≠ none := by
  refine ⟨by decide, by decide, by decide, by decide⟩

/-- C5, amended.  The selector of src/ytsub_my07.py: (1) a track matching
zh-TW, zh-Hant or zh-HK (in that request order, authored preferred over
auto-generated for the same code) is returned unmodified; (2) otherwise a
track matching en or zh-Hans is selected and marked for translation to
zh-TW exactly when it is itself translatable; (3) otherwise the first
listed track is selected, translated to zh-TW exactly when translatable;
(4) selection fails exactly when the track list is empty; and on the
spec's example tracks, a single authored translatable en track yields
the en track with translation target zh-TW. -/
theorem c5_selector_amended :
    (∀ (tracks : List Track) (t : Track),
      findTranscript tracks ["zh-TW", "zh-Hant", "zh-HK"] = some t →
      selectTranscript tracks = some ⟨t, none⟩) ∧
    (∀ (tracks : List Track) (t : Track),
      findTranscript tracks ["zh-TW", "zh-Hant", "zh-HK"] = none →
      findTranscript tracks ["en", "zh-Hans"] = some t →
      selectTranscript tracks = some ⟨t, if t.isTranslatable then some "zh-TW" else none⟩) ∧
    (∀ (tracks : List Track) (t : Track),
      findTranscript tracks ["zh-TW", "zh-Hant", "zh-HK"] = none →
      findTranscript tracks ["en", "zh-Hans"] = none →
      tracks.head? = some t →
      selectTranscript tracks = some ⟨t, if t.isTranslatable then some "zh-TW" else none⟩) ∧
    (∀ tracks : List Track, selectTranscript tracks = none ↔ tracks = []) ∧
    selectTranscript [⟨"en", false, true⟩] = some ⟨⟨"en", false, true⟩, some "zh-TW"⟩ := by
  refine ⟨?_, ?_, ?_, ?_, by decide⟩
  · intro tracks t h
    rw [selectTranscript, h]
  · intro tracks t h1 h2
    rw [selectTranscript, h1, h2]
  · intro tracks t h1 h2 h3
    rw [selectTranscript, h1, h2, h3]
  · intro tracks
    constructor
    · intro h
      rw [selectTranscript] at h
      cases hf1 : findTranscript tracks ["zh-TW", "zh-Hant", "zh-HK"] with
      | some t => rw [hf1] at h; exact absurd h (by simp)
      | none =>
        rw [hf1] at h
        cases hf2 : findTranscript tracks ["en", "zh-Hans"] with
        | some t => rw [hf2] at h; exact absurd h (by simp)
        | none =>
          rw [hf2] at h
          cases hh : tracks.head? with
          | some t => rw [hh] at h; exact absurd h (by simp)
          | none => exact List.head?_eq_none_iff.mp hh
    · intro h
      subst h
      rfl

/-- Witness for C5's amended theorem at concrete inputs. -/
theorem c5_selector_amended_witness :
    selectTranscript [⟨"zh-Hant", true, true⟩, ⟨"en", false, true⟩] =
      some ⟨⟨"zh-Hant", true, true⟩, none⟩ ∧
    selectTranscript [⟨"fr", true, false⟩] =
      some ⟨⟨"fr", true, false⟩, if (false : Bool) = true then some "zh-TW" else none⟩ ∧
    (selectTranscript [] = none ↔ ([] : List Track) = []) :=
  ⟨c5_selector_amended.1 [⟨"zh-Hant", true, true⟩, ⟨"en", false, true⟩]
      ⟨"zh-Hant", true, true⟩ (by decide),
   c5_selector_amended.2.2.1 [⟨"fr", true, false⟩] ⟨"fr", true, false⟩
      (by decide) (by decide) (by decide),
   c5_selector_amended.2.2.2.1 []⟩

/-! ## Claim C3: the event-stream parser -/

/-- C3.  For every event-stream payload: an event with no segment list is
skipped silently; an event whose segment list concatenates and trims to
non-empty text is emitted as one cue line whose text is that
concatenation-then-trim and whose timestamp renders start_ms / 1000
seconds; an event whose concatenated text trims to empty is dropped; and
the parser output is exactly the join of the per-event lines, a total
function that cannot fail. -/
theorem c3_event_stream :
    (∀ e : Event, e.segs = none → eventLine e = none) ∧
    (∀ (e : Event) (segs : List Seg), e.segs = some segs → segsText segs ≠ "" →
      eventLine e = some (fmtHMS (e.tStartMs.getD 0 / 1000) ++ " " ++ segsText segs)) ∧
    (∀ (e : Event) (segs : List Seg), e.segs = some segs → segsText segs = "" →
      eventLine e = none) ∧
    (∀ data : Json3Payload,
      parse_json3 data = joinLinesStr ((data.events.getD []).filterMap eventLine)) := by
  refine ⟨?_, ?_, ?_, fun data => rfl⟩
  · intro e h
    simp [eventLine, h]
  · intro e segs hs hne
    simp only [eventLine, hs]
    rw [if_pos (segsText_guard segs hne)]
  · intro e segs hs hempty
    have hie : (segsText segs).data.isEmpty = true := by rw [hempty]; rfl
    simp [eventLine, hs, hie]

/-- Witness for C3 at concrete events: a styling-only event is skipped, a
segment list trimming to non-empty text is emitted at start_ms / 1000, and
a whitespace-only segment list is dropped. -/
theorem c3_event_stream_witness :
    eventLine ⟨some 0, none⟩ = none ∧
    eventLine ⟨some 5000, some [⟨some " hi "⟩]⟩ =
      some (fmtHMS ((some 5000 : Option Nat).getD 0 / 1000) ++ " " ++ segsText [⟨some " hi "⟩]) ∧
    eventLine ⟨some 0, some [⟨some "  "⟩]⟩ = none :=
  ⟨c3_event_stream.1 ⟨some 0, none⟩ rfl,
   c3_event_stream.2.1 ⟨some 5000, some [⟨some " hi "⟩]⟩ [⟨some " hi "⟩] rfl (by decide),
   c3_event_stream.2.2.1 ⟨some 0, some [⟨some "  "⟩]⟩ [⟨some "  "⟩] rfl (by decide)⟩

/-! ## Claim C7: chronological output order -/

/-- C7.  The event-stream parser emits cues in source order: the sequence
of emitted start times is a subsequence of the events' start times taken in
order (so ties preserve source order), and whenever the payload's event
start offsets are monotonically non-decreasing — as in every valid payload
— the emitted cue start times are monotonically non-decreasing too. -/
theorem c7_output_order :
    ∀ events : List Event,
      (((events.filterMap eventCue).map Prod.fst).Sublist
        (events.map (fun e => e.tStartMs.getD 0 / 1000))) ∧
      (List.Chain' (fun a b => a ≤ b) (events.map (fun e => e.tStartMs.getD 0)) →
        List.Chain' (fun a b => a ≤ b) ((events.filterMap eventCue).map Prod.fst)) := by
  intro events
  refine ⟨cue_starts_sublist events, ?_⟩
  intro h
  rw [List.chain'_iff_pairwise] at h ⊢
  have h2 : List.Pairwise (fun a b => a ≤ b)
      (events.map (fun e => e.tStartMs.getD 0 / 1000)) := by
    rw [List.pairwise_map] at h ⊢
    exact h.imp (fun hab => Nat.div_le_div_right hab)
  exact h2.sublist (cue_starts_sublist events)

/-- Witness for C7 at a concrete time-ordered payload. -/
theorem c7_output_order_witness :
    List.Chain' (fun a b => a ≤ b)
      ((([⟨some 0, some [⟨some "a"⟩]⟩, ⟨some 1000, some [⟨some "b"⟩]⟩] :
          List Event).filterMap eventCue).map Prod.fst) :=
  (c7_output_order [⟨some 0, some [⟨some "a"⟩]⟩, ⟨some 1000, some [⟨some "b"⟩]⟩]).2
    (by simp)

/-! ## Claim C6: the non-empty-text invariant -/

/-- C6.  The claim states that every emitted TranscriptLine has non-empty
cleaned text.  The rendering loop of get_transcript in src/ytsub.py
(lines 102-108) has no emptiness check: for the transcript entry with
start 0 and empty text it emits the line "[00:00:00] ", a TranscriptLine
whose text is empty — contradicting the stated invariant. -/
theorem c6_empty_text_line_emitted :
    get_transcript_lines [⟨0, ""⟩] = "[00:00:00] " ∧
    get_transcript_lines [⟨0, ""⟩] = "[" ++ format_timestamp 0 ++ "] " ++ "" :=
  ⟨rfl, rfl⟩

/-! ## Claim C4: the timed-text cleaner -/

/-- C4.  The timed-text cleaner strips a leading byte-order marker before
any other processing (adding one never changes the result); a block with no
timestamp match is discarded; and on a payload exercising every cleaning
step — header removal, time-line removal, inline-tag stripping
(the block containing the bold hello yields cue text hello), empty-block
dropping, &nbsp; decoding, positioning-attribute removal and line
joining — the output is exactly the cleaned timestamped lines. -/
theorem c4_timedtext_cleaning :
    (∀ t : String, clean_vtt ("\uFEFF" ++ t) = clean_vtt t) ∧
    (∀ block : List Char, searchTime block = none → processBlock block = none) ∧
    clean_vtt "WEBVTT\n\n00:00:01.000 --> 00:00:03.000 align:start position:0%\n<b>hello</b>\n\nNOTE no time here\n\n00:00:05.000 --> 00:00:07.000\n<i></i>\n\n00:00:09.000 --> 00:00:10.000\nA&nbsp;B\n\n00:00:11.000 --> 00:00:12.000\nalign:start position:0% C\n" =
      "[00:00:01] hello\n[00:00:09] A B\n[00:00:11] C" := by
  refine ⟨?_, ?_, by decide⟩
  · intro t
    have hbom : ("\uFEFF" ++ t).data.dropWhile (fun c => c = '\uFEFF') =
        t.data.dropWhile (fun c => c = '\uFEFF') := by
      rw [String.data_append]
      have h1 : ("\uFEFF" : String).data = ['\uFEFF'] := rfl
      rw [h1, List.cons_append, List.nil_append, List.dropWhile_cons]
      simp
    simp only [clean_vtt]
    rw [hbom]
  · intro block h
    simp [processBlock, h]

/-- Witness for C4 at concrete inputs: a byte-order marker in front of a
concrete payload is ignored, and a concrete block with no timestamp is
discarded. -/
theorem c4_timedtext_cleaning_witness :
    clean_vtt ("\uFEFF" ++ "WEBVTT\nx") = clean_vtt "WEBVTT\nx" ∧
    processBlock "NOTE x".data = none :=
  ⟨c4_timedtext_cleaning.1 "WEBVTT\nx",
   c4_timedtext_cleaning.2.1 "NOTE x".data (by decide)⟩

/-! ## Claim C8: idempotence of the cue normalizer -/

/-- C8.  Normalization is idempotent on already-normalized cue sequences:
applying the cue-level normalizer (per-cue cleaning, dropping empties,
adjacent-duplicate suppression) to cues whose texts are non-empty,
stripped, free of markup and extra whitespace, and without adjacent
duplicate texts returns the sequence unchanged. -/
theorem c8_normalizer_idempotent :
    ∀ cues : List (String × String),
      (∀ p ∈ cues, isCleanLineText p.2 = true) →
      List.Chain' (fun a b => a.2 ≠ b.2) cues →
      normalizeCues cues = cues := by
  intro cues hclean hchain
  rw [normalizeCues, filterMap_clean_id cues hclean]
  have hnonempty : ∀ p ∈ cues, p.2 ≠ "" := by
    intro p hp hcontra
    have h0 := (isCleanLineText_spec (hclean p hp)).1
    exact h0 ((str_eq_empty_iff p.2).mp hcontra)
  refine dedupPairs_eq_self cues "" hnonempty hchain ?_
  intro p hp
  exact hnonempty p (List.mem_of_mem_head? hp)

/-- Witness for C8 at a concrete normalized cue sequence. -/
theorem c8_normalizer_idempotent_witness :
    normalizeCues [("[00:00:00]", "hi"), ("[00:00:01]", "bye")] =
      [("[00:00:00]", "hi"), ("[00:00:01]", "bye")] :=
  c8_normalizer_idempotent [("[00:00:00]", "hi"), ("[00:00:01]", "bye")]
    (by decide) (by simp [List.chain'_cons])

/-! ## Claim C10: totality of the event-stream parser on malformed input -/

/-- C10.  The event-stream parser is total on the dictionary shapes it
distinguishes: a payload with no events key yields the empty result; an
event that has a segment list but no tStartMs field is emitted with start
offset 0, rendered [00:00:00], exactly as if tStartMs were present as 0;
and a segment with no utf8 field contributes the empty string to the
concatenation, exactly as if utf8 were present as the empty string.  Being
a total function, parse_json3 raises no exception on any such input. -/
theorem c10_malformed_payload_total :
    parse_json3 ⟨none⟩ = "" ∧
    parse_json3 ⟨some [⟨none, some [⟨some "hi"⟩, ⟨none⟩]⟩]⟩ = "[00:00:00] hi" ∧
    (∀ osegs : Option (List Seg), eventLine ⟨none, osegs⟩ = eventLine ⟨some 0, osegs⟩) ∧
    (∀ segs : List Seg, segsText (⟨none⟩ :: segs) = segsText (⟨some ""⟩ :: segs)) :=
  ⟨rfl, by decide, fun osegs => rfl, fun segs => rfl⟩

end YtSub
